import Mathlib

/-!
Shallow embedding of the nui_scalar_data QGIS plugin core logic
(`nui_scalar_data.py`, `nui_scalar_data_plotters.py`,
`nui_scalar_data_widgets.py`).

Times and scalar values (Python floats) are modelled as rationals;
the trigonometric projection scale factors are modelled over the reals.
Python dicts keyed by strings become association lists; a Python value
that may be `None` becomes an `Option`.
-/

namespace NuiScalarData

/-! ## Projection (`ll2xy`, `xy2ll`, `mdeglat`, `mdeglon`) -/

/-- The longitude adjustment performed at the top of `ll2xy`:
`if lon > 180: lon -= 360` then `if lon < -180: lon += 360`
(the second test sees the result of the first). -/
noncomputable def normalizeLon (lon : ℝ) : ℝ :=
  let lon1 := if lon > 180 then lon - 360 else lon
  if lon1 < -180 then lon1 + 360 else lon1

/-- `mdeglat(lat_deg)`: meters per degree of latitude at the given
latitude, `math.radians` expanded to multiplication by `pi / 180`. -/
noncomputable def mdeglat (lat_deg : ℝ) : ℝ :=
  let latrad := lat_deg * (Real.pi / 180)
  111132.09 - 566.05 * Real.cos (2.0 * latrad)
    + 1.20 * Real.cos (4.0 * latrad)
    - 0.002 * Real.cos (6.0 * latrad)

/-- `mdeglon(lat_deg)`: meters per degree of longitude at the given
latitude. -/
noncomputable def mdeglon (lat_deg : ℝ) : ℝ :=
  let latrad := lat_deg * (Real.pi / 180)
  111415.13 * Real.cos latrad
    - 94.55 * Real.cos (3.0 * latrad)
    + 0.12 * Real.cos (5.0 * latrad)

/-- `ll2xy(lat, lon, lat_0, lon_0)`: local planar coordinates from
lat/lon, after the longitude adjustment. -/
noncomputable def ll2xy (lat lon lat_0 lon_0 : ℝ) : ℝ × ℝ :=
  ((normalizeLon lon - lon_0) * mdeglon lat_0,
   (lat - lat_0) * mdeglat lat_0)

/-- `xy2ll(xx, yy, lat_0, lon_0)`: lat/lon from local planar
coordinates; returns `(lat, lon)`. -/
noncomputable def xy2ll (xx yy lat_0 lon_0 : ℝ) : ℝ × ℝ :=
  (yy / mdeglat lat_0 + lat_0, xx / mdeglon lat_0 + lon_0)

/-! ## Position track (`MapLayerPlotter.handle_statexy`) -/

/-- One row of `self.statexy_data`: `[utime / 1.0e6, msg.x, msg.y]`. -/
structure PositionSample where
  time : ℚ
  x : ℚ
  y : ℚ
deriving DecidableEq

/-- A decoded `statexy_t` message (`utime` in integer microseconds). -/
structure StateXYMsg where
  utime : ℤ
  x : ℚ
  y : ℚ
deriving DecidableEq

/-- `msg.utime / 1.0e6`: message time in seconds. -/
def StateXYMsg.time (m : StateXYMsg) : ℚ := (m.utime : ℚ) / 1000000

/-- `MapLayerPlotter.handle_statexy` acting on the track.
`self.statexy_data is None` is modelled by the empty list (the stored
array is never empty otherwise: it is created with one row). If the
track is empty the sample is inserted; else if `new_t > last_t` it is
appended; else the message is stale and the track is unchanged. -/
def handle_statexy (track : List PositionSample) (msg : StateXYMsg) :
    List PositionSample :=
  match track.getLast? with
  | none => [⟨msg.time, msg.x, msg.y⟩]
  | some last =>
    if last.time < msg.time then track ++ [⟨msg.time, msg.x, msg.y⟩]
    else track

/-- The track produced by delivering a sequence of statexy messages
(from either redundant channel) to `handle_statexy`, starting from
`self.statexy_data = None`. -/
def runStateXY (msgs : List StateXYMsg) : List PositionSample :=
  msgs.foldl handle_statexy []

/-- Strictly increasing stored times, pairwise between neighbours. -/
def timesStrictMono (track : List PositionSample) : Prop :=
  List.Chain' (fun a b : PositionSample => a.time < b.time) track

/-! ## Linear interpolation (`np.interp` as used on the track) -/

/-- `np.interp(t, xp, fp)` for a strictly increasing abscissa list,
on the list of `(xp, fp)` pairs: clamps to the first value left of the
data, to the last value right of the data, and interpolates linearly
between the two bracketing points otherwise. `np.interp` raises on an
empty array; the `[]` case is junk and is never used (the track is
nonempty whenever this is called). -/
def interp (t : ℚ) : List (ℚ × ℚ) → ℚ
  | [] => 0
  | [(_, v0)] => v0
  | (t0, v0) :: (t1, v1) :: rest =>
    if t ≤ t0 then v0
    else if t ≤ t1 then v0 + (v1 - v0) * (t - t0) / (t1 - t0)
    else interp t ((t1, v1) :: rest)

/-- Strict ordering of `(time, value)` pairs by time, the shape of the
abscissa data `np.interp` expects. -/
def ptLT (p q : ℚ × ℚ) : Prop := p.1 < q.1

instance : IsTrans (ℚ × ℚ) ptLT :=
  ⟨fun _ _ _ h1 h2 => lt_trans h1 h2⟩

instance : DecidableRel ptLT := fun p q =>
  inferInstanceAs (Decidable (p.1 < q.1))

/-- The `(time, x)` pairs of a track, as fed to `np.interp`. -/
def trackTX (track : List PositionSample) : List (ℚ × ℚ) :=
  track.map fun s => (s.time, s.x)

/-- The `(time, y)` pairs of a track. -/
def trackTY (track : List PositionSample) : List (ℚ × ℚ) :=
  track.map fun s => (s.time, s.y)

/-! ## Geolocation handlers (`update_cursor`, `MapLayerPlotter.update_data`) -/

/-- The origin set by `initialize_origin` from the first DIVE_INI
message; `self.lat0` / `self.lon0` are `None` before that. -/
structure Origin where
  lat0 : ℚ
  lon0 : ℚ
deriving DecidableEq

/-- Outcome of `MapLayerPlotter.update_cursor`. -/
inductive CursorOutcome where
  /-- `self.lon0 is None`: prints and returns before touching the track. -/
  | earlyReturn : CursorOutcome
  /-- Origin set but `self.statexy_data is None`: the handler evaluates
  `self.statexy_data[:, 0]`, raising an uncaught `TypeError`. -/
  | typeError : CursorOutcome
  /-- Cursor feature placed at interpolated local coordinates
  (converted to lat/lon by `xy2ll` before plotting). -/
  | feature (x y : ℚ) : CursorOutcome
deriving DecidableEq

/-- `MapLayerPlotter.update_cursor(tt)` as a function of the origin
state and the track. -/
def update_cursor (origin : Option Origin) (track : List PositionSample)
    (tt : ℚ) : CursorOutcome :=
  match origin with
  | none => .earlyReturn
  | some _ =>
    match track with
    | [] => .typeError
    | _ :: _ => .feature (interp tt (trackTX track)) (interp tt (trackTY track))

/-- Outcome of `MapLayerPlotter.update_data`. -/
inductive DataOutcome where
  /-- `self.lon0 is None`: prints and returns. -/
  | earlyReturnOrigin : DataOutcome
  /-- `key not in self.layers`: prints and returns. -/
  | earlyReturnNoLayer : DataOutcome
  /-- Origin set, layer known, but `self.statexy_data is None`:
  uncaught `TypeError` on `self.statexy_data[:, 0]`. -/
  | typeError : DataOutcome
  /-- Feature added at interpolated local coordinates. -/
  | feature (x y : ℚ) : DataOutcome
deriving DecidableEq

/-- `MapLayerPlotter.update_data(key, tt, val)` as a function of the
origin state, the set of layer keys, and the track. -/
def map_update_data (origin : Option Origin) (layerKeys : List String)
    (track : List PositionSample) (key : String) (tt : ℚ) : DataOutcome :=
  match origin with
  | none => .earlyReturnOrigin
  | some _ =>
    if key ∈ layerKeys then
      match track with
      | [] => .typeError
      | _ :: _ => .feature (interp tt (trackTX track)) (interp tt (trackTY track))
    else .earlyReturnNoLayer

/-- The geographic point at which a `.feature x y` outcome is plotted:
`lat, lon = xy2ll(xx, yy, self.lat0, self.lon0)`. -/
noncomputable def featureGeo (o : Origin) (x y : ℚ) : ℝ × ℝ :=
  xy2ll (x : ℝ) (y : ℝ) (o.lat0 : ℝ) (o.lon0 : ℝ)

/-! ## Rate limiter (`NuiScalarDataMainWindow.update_data`) -/

/-- Per-key decimation state of the main window: `self.last_updated[key]`
(initialized to `0.0` by `add_field`) plus, for specification purposes,
the times of the samples actually forwarded to the plotters. -/
structure LimiterState where
  last_updated : ℚ
  accepted : List ℚ
deriving DecidableEq

/-- The state of a freshly added field: `self.last_updated[key] = 0.0`. -/
def initLimiter : LimiterState := ⟨0, []⟩

/-- One call of `NuiScalarDataMainWindow.update_data` for a key with
rate `sample_rate`: `dt = tt - self.last_updated[key]`,
`period = 1.0 / sample_rate`; if `dt < period` the sample is dropped,
otherwise `last_updated` is set to `tt` and the sample is forwarded. -/
def limiter_step (sample_rate : ℚ) (st : LimiterState) (tt : ℚ) :
    LimiterState :=
  if tt - st.last_updated < 1 / sample_rate then st
  else ⟨tt, st.accepted ++ [tt]⟩

/-- Delivering a sequence of sample times to a freshly added field. -/
def run_limiter (sample_rate : ℚ) (ts : List ℚ) : LimiterState :=
  ts.foldl (limiter_step sample_rate) initLimiter

/-! ## Subscription registry (`add_field`, `remove_field`) -/

/-- Lookup in a Python dict modelled as an association list. -/
def dget {α : Type} : List (String × α) → String → Option α
  | [], _ => none
  | (k', v) :: rest, k => if k' = k then some v else dget rest k

/-- `d[k] = v`: update the existing binding, else append a new one. -/
def dinsert {α : Type} : List (String × α) → String → α → List (String × α)
  | [], k, v => [(k, v)]
  | (k', v') :: rest, k, v =>
    if k' = k then (k, v) :: rest else (k', v') :: dinsert rest k v

/-- `d.pop(k)`: remove the binding for `k` (keys are kept unique, so
removing the first occurrence is faithful). -/
def dpop {α : Type} : List (String × α) → String → List (String × α)
  | [], _ => []
  | (k', v') :: rest, k =>
    if k' = k then rest else (k', v') :: dpop rest k

/-- The keys of a dict. -/
def dkeys {α : Type} (d : List (String × α)) : List String :=
  d.map Prod.fst

/-- The list `self.config[key] = [channel, msg_type_str, msg_field,
sample_rate, layer_name]`. -/
structure FieldConfig where
  channel : String
  msg_type_str : String
  msg_field : String
  sample_rate : ℚ
  layer_name : String
deriving DecidableEq

/-- The per-field dictionaries of `NuiScalarDataMainWindow` together
with those of the `TimeSeriesPlotter` it drives (`self.data[key]`,
`self.ylims[key]`), and a counter supplying fresh LCM subscription
handles. -/
structure MainState where
  config : List (String × FieldConfig)
  sample_rates : List (String × ℚ)
  last_updated : List (String × ℚ)
  subscribers : List (String × ℕ)
  tsp_data : List (String × Option (List (ℚ × ℚ)))
  tsp_ylims : List (String × (Option ℚ × Option ℚ))
  next_handle : ℕ
deriving DecidableEq

/-- Result of `NuiScalarDataMainWindow.add_field`. -/
inductive AddFieldResult where
  /-- `key in self.config`: warning pushed, method returns early. -/
  | duplicateField (key : String) : AddFieldResult
  /-- Field registered under `key`. -/
  | ok (key : String) : AddFieldResult
deriving DecidableEq

/-- `NuiScalarDataMainWindow.add_field(channel, msg_type_str, msg_field,
sample_rate, layer_name)`: computes `key = f"{channel}/{msg_field}"`;
returns early on a duplicate key, leaving all state untouched; otherwise
records the config, sample rate, `last_updated = 0.0`, the time series
plotter entries (`data[key] = None`, `ylims[key] = [None, None]`), and a
fresh LCM subscription handle. -/
def add_field (s : MainState) (channel msg_type_str msg_field : String)
    (sample_rate : ℚ) (layer_name : String) : MainState × AddFieldResult :=
  let key := channel ++ "/" ++ msg_field
  if (dget s.config key).isSome then
    (s, .duplicateField key)
  else
    ({ config := dinsert s.config key
         ⟨channel, msg_type_str, msg_field, sample_rate, layer_name⟩,
       sample_rates := dinsert s.sample_rates key sample_rate,
       last_updated := dinsert s.last_updated key 0,
       subscribers := dinsert s.subscribers key s.next_handle,
       tsp_data := dinsert s.tsp_data key none,
       tsp_ylims := dinsert s.tsp_ylims key (none, none),
       next_handle := s.next_handle + 1 },
     .ok key)

/-- `NuiScalarDataMainWindow.remove_field(key)` together with the
`TimeSeriesPlotter.remove_field(key)` slot connected to the same
signal: pops the key from every per-field dictionary and drops the
subscription handle. -/
def remove_field (s : MainState) (key : String) : MainState :=
  { config := dpop s.config key,
    sample_rates := dpop s.sample_rates key,
    last_updated := dpop s.last_updated key,
    subscribers := dpop s.subscribers key,
    tsp_data := dpop s.tsp_data key,
    tsp_ylims := dpop s.tsp_ylims key,
    next_handle := s.next_handle }

/-- Uniqueness of registry keys. -/
@[reducible]
def keysUnique (s : MainState) : Prop := (dkeys s.config).Nodup

/-- A concrete one-field registry state, as produced by one successful
`add_field("CH", "float", "field", 1.0, "name")`. -/
def sampleState1 : MainState :=
  ⟨[("CH/field", ⟨"CH", "float", "field", 1, "name"⟩)],
    [("CH/field", 1)], [("CH/field", 0)], [("CH/field", 0)],
    [("CH/field", none)], [("CH/field", (none, none))], 1⟩

/-- A concrete two-field registry state. -/
def sampleState2 : MainState :=
  ⟨[("A/f", ⟨"A", "ta", "f", 1, "la"⟩), ("B/g", ⟨"B", "tb", "g", 2, "lb"⟩)],
    [("A/f", 1), ("B/g", 2)], [("A/f", 0), ("B/g", 0)],
    [("A/f", 0), ("B/g", 1)], [("A/f", none), ("B/g", some [(3, 4)])],
    [("A/f", (none, none)), ("B/g", (some 0, none))], 2⟩

/-! ## Time-series view window (`TimeSeriesPlotter` in
`nui_scalar_data_plotters.py`) -/

/-- The window-selection state: `right_click_t0` / `right_click_t1`
from the mouse drag, and `time_limit` from the text box (`None` = all
data, negative = trailing window, nonnegative = since that time). -/
structure TSState where
  right_click_t0 : Option ℚ
  right_click_t1 : Option ℚ
  time_limit : Option ℚ
deriving DecidableEq

/-- `TimeSeriesPlotter.set_time_limits(timestamp)`: stores the value
and clears the mouse-selected range. -/
def set_time_limits (s : TSState) (timestamp : Option ℚ) : TSState :=
  { s with
      right_click_t0 := none
      right_click_t1 := none
      time_limit := timestamp }

/-- Right-button press inside the axes (`on_button_press_event`). -/
def on_press_right (s : TSState) (t : ℚ) : TSState :=
  { s with right_click_t0 := some t }

/-- Right-button release inside the axes (`on_button_release_event`):
only records `t1` when a press already recorded `t0`. -/
def on_release_right (s : TSState) (t : ℚ) : TSState :=
  if s.right_click_t0.isSome then { s with right_click_t1 := some t }
  else s

/-- A full right-drag gesture selecting the explicit range `[a, b]`:
press at `a`, release at `b`. -/
def set_explicit (s : TSState) (a b : ℚ) : TSState :=
  on_release_right (on_press_right s a) b

/-- `np.min` over a nonempty list (junk `0` on `[]`, never used there). -/
def listMin : List ℚ → ℚ
  | [] => 0
  | t :: ts => ts.foldl min t

/-- `np.max` over a nonempty list (junk `0` on `[]`). -/
def listMax : List ℚ → ℚ
  | [] => 0
  | t :: ts => ts.foldl max t

/-- The `(t0, t1)` display bounds computed by
`TimeSeriesPlotter.update_data` for a key whose sample times are
`times`: the mouse-selected range when both ends are set, otherwise the
`time_limit` policy against the series' own min/max time. -/
def window_bounds (s : TSState) (times : List ℚ) : ℚ × ℚ :=
  match s.right_click_t0, s.right_click_t1 with
  | some t0, some t1 => (t0, t1)
  | _, _ =>
    match s.time_limit with
    | none => (listMin times, listMax times)
    | some tl =>
      if tl < 0 then (listMax times + tl, listMax times)
      else (tl, listMax times)

/-- The samples selected for display by `update_data`:
indices with `t0 <= time` intersected with those with `time <= t1`. -/
def visible_slice (s : TSState) (data : List (ℚ × ℚ)) : List (ℚ × ℚ) :=
  let b := window_bounds s (data.map Prod.fst)
  data.filter fun p => b.1 ≤ p.1 ∧ p.1 ≤ b.2

/-! ## Scalar message handling (`handle_data`, `spin_lcm`) -/

/-- A decoded scalar message: `utime` plus named numeric fields. -/
structure ScalarMsg where
  utime : ℤ
  fields : List (String × ℚ)
deriving DecidableEq

/-- Raw bytes delivered by LCM: either they decode to a message of the
subscribed type, or `msg_type.decode(data)` raises `ValueError`. -/
inductive RawData where
  | valid (msg : ScalarMsg) : RawData
  | malformed : RawData
deriving DecidableEq

/-- The Python exceptions arising inside `handle_data`'s try block. -/
inductive PyError where
  | valueError : PyError
  | attributeError : PyError
deriving DecidableEq

/-- `msg_type.decode(data)`: `ValueError` on malformed bytes. -/
def decodeMsg : RawData → Except PyError ScalarMsg
  | .valid m => .ok m
  | .malformed => .error .valueError

/-- `getattr(msg, msg_field)`: `AttributeError` when the field is
absent. -/
def getattrField (m : ScalarMsg) (f : String) : Except PyError ℚ :=
  match dget m.fields f with
  | some v => .ok v
  | none => .error .attributeError

/-- The body of `handle_data`'s try block: decode, take
`tt = msg.utime / 1.0e6`, project the named field, and emit
`(key, tt, vv)` on the `new_data` signal. -/
def handle_data_body (msg_field channel : String) (data : RawData) :
    Except PyError (String × ℚ × ℚ) :=
  match decodeMsg data with
  | .error e => .error e
  | .ok msg =>
    match getattrField msg msg_field with
    | .error e => .error e
    | .ok vv => .ok (channel ++ "/" ++ msg_field, (msg.utime : ℚ) / 1000000, vv)

/-- `NuiScalarDataMainWindow.handle_data`: the try body with its two
except clauses; a `ValueError` or `AttributeError` is logged and the
message dropped (`none`), so the handler itself never raises. -/
def handle_data (msg_field channel : String) (data : RawData) :
    Option (String × ℚ × ℚ) :=
  match handle_data_body msg_field channel data with
  | .ok r => some r
  | .error .valueError => none
  | .error .attributeError => none

/-- `spin_lcm`'s delivery loop over a finite message backlog on one
subscribed channel: each message is passed to `handle_data` in order
and the emitted `new_data` tuples are collected. -/
def spin_lcm (msg_field channel : String) (msgs : List RawData) :
    List (String × ℚ × ℚ) :=
  msgs.filterMap (handle_data msg_field channel)

/-! ## Dictionary lemmas -/

theorem dget_eq_none_of_not_mem {α : Type} (d : List (String × α)) (k : String)
    (h : k ∉ dkeys d) : dget d k = none := by
  induction d with
  | nil => rfl
  | cons hd tl ih =>
    obtain ⟨a, b⟩ := hd
    simp only [dkeys, List.map_cons, List.mem_cons, not_or] at h
    have ha : a ≠ k := fun hh => h.1 hh.symm
    simpa [dget, ha] using ih h.2

theorem dget_dinsert_self {α : Type} (d : List (String × α)) (k : String) (v : α) :
    dget (dinsert d k v) k = some v := by
  induction d with
  | nil => simp [dinsert, dget]
  | cons hd tl ih =>
    obtain ⟨a, b⟩ := hd
    by_cases h : a = k
    · simp [dinsert, h, dget]
    · simp [dinsert, h, dget, ih]

theorem dget_dinsert_ne {α : Type} (d : List (String × α)) (k k' : String) (v : α)
    (h : k' ≠ k) : dget (dinsert d k v) k' = dget d k' := by
  induction d with
  | nil =>
    have hk : k ≠ k' := Ne.symm h
    simp [dinsert, dget, hk]
  | cons hd tl ih =>
    obtain ⟨a, b⟩ := hd
    by_cases ha : a = k
    · subst ha
      have : a ≠ k' := Ne.symm h
      simp [dinsert, dget, this]
    · by_cases ha' : a = k'
      · simp [dinsert, ha, dget, ha', h]
      · simp [dinsert, ha, dget, ha', ih]

theorem dget_dpop_ne {α : Type} (d : List (String × α)) (k k' : String)
    (h : k' ≠ k) : dget (dpop d k) k' = dget d k' := by
  induction d with
  | nil => rfl
  | cons hd tl ih =>
    obtain ⟨a, b⟩ := hd
    by_cases ha : a = k
    · subst ha
      have : a ≠ k' := Ne.symm h
      simp [dpop, dget, this]
    · by_cases ha' : a = k'
      · simp [dpop, ha, dget, ha', h]
      · simp [dpop, ha, dget, ha', ih]

theorem dget_dpop_self {α : Type} (d : List (String × α)) (k : String)
    (h : (dkeys d).Nodup) : dget (dpop d k) k = none := by
  induction d with
  | nil => rfl
  | cons hd tl ih =>
    obtain ⟨a, b⟩ := hd
    simp only [dkeys, List.map_cons, List.nodup_cons] at h
    by_cases ha : a = k
    · subst ha
      simp only [dpop, if_pos rfl]
      exact dget_eq_none_of_not_mem tl a h.1
    · simp [dpop, ha, dget, ih h.2]

theorem mem_dkeys_dinsert {α : Type} (d : List (String × α)) (k : String) (v : α)
    (x : String) : x ∈ dkeys (dinsert d k v) ↔ x = k ∨ x ∈ dkeys d := by
  induction d with
  | nil => simp [dinsert, dkeys]
  | cons hd tl ih =>
    obtain ⟨a, b⟩ := hd
    by_cases ha : a = k
    · subst ha
      have hrw : dinsert ((a, b) :: tl) a v = (a, v) :: tl := by
        simp [dinsert]
      rw [hrw]
      simp only [dkeys, List.map_cons, List.mem_cons]
      tauto
    · have hrw : dinsert ((a, b) :: tl) k v = (a, b) :: dinsert tl k v := by
        simp [dinsert, ha]
      rw [hrw]
      simp only [dkeys, List.map_cons, List.mem_cons] at ih ⊢
      constructor
      · rintro (hx | hx)
        · tauto
        · rcases (ih).1 hx with h1 | h1 <;> tauto
      · rintro (hx | hx | hx)
        · exact Or.inr ((ih).2 (Or.inl hx))
        · tauto
        · exact Or.inr ((ih).2 (Or.inr hx))

theorem dkeys_dinsert_nodup {α : Type} (d : List (String × α)) (k : String) (v : α)
    (h : (dkeys d).Nodup) : (dkeys (dinsert d k v)).Nodup := by
  induction d with
  | nil => simp [dinsert, dkeys]
  | cons hd tl ih =>
    obtain ⟨a, b⟩ := hd
    simp only [dkeys, List.map_cons, List.nodup_cons] at h
    by_cases ha : a = k
    · subst ha
      have hrw : dinsert ((a, b) :: tl) a v = (a, v) :: tl := by
        simp [dinsert]
      rw [hrw]
      simp only [dkeys, List.map_cons, List.nodup_cons]
      exact h
    · have hrw : dinsert ((a, b) :: tl) k v = (a, b) :: dinsert tl k v := by
        simp [dinsert, ha]
      rw [hrw]
      simp only [dkeys, List.map_cons, List.nodup_cons]
      refine ⟨?_, ih h.2⟩
      intro hmem
      rcases (mem_dkeys_dinsert tl k v a).1 hmem with h1 | h1
      · exact ha h1
      · exact h.1 h1

theorem dpop_sublist {α : Type} (d : List (String × α)) (k : String) :
    (dpop d k).Sublist d := by
  induction d with
  | nil => exact List.Sublist.refl []
  | cons hd tl ih =>
    obtain ⟨a, b⟩ := hd
    by_cases ha : a = k
    · simp only [dpop, if_pos ha]
      exact List.sublist_cons_self (a, b) tl
    · simp only [dpop, if_neg ha]
      exact ih.cons₂ (a, b)

theorem dkeys_dpop_nodup {α : Type} (d : List (String × α)) (k : String)
    (h : (dkeys d).Nodup) : (dkeys (dpop d k)).Nodup :=
  h.sublist ((dpop_sublist d k).map Prod.fst)

/-! ## Registry theorems -/

/-- C5: `add_field` on a key already in `self.config` pushes a warning
and returns with the whole state unchanged (no entry overwritten, no
dictionary grown, no LCM subscription made); on a fresh key it
registers the field under that key; and key uniqueness in the registry
is preserved by both `add_field` and `remove_field`, so keys stay
unique at all times. -/
theorem add_field_duplicate_rejected :
    ∀ (s : MainState) (channel msg_type_str msg_field : String)
      (rate : ℚ) (layer : String),
    ((dget s.config (channel ++ "/" ++ msg_field)).isSome →
      add_field s channel msg_type_str msg_field rate layer
        = (s, .duplicateField (channel ++ "/" ++ msg_field)))
    ∧ (dget s.config (channel ++ "/" ++ msg_field) = none →
        (add_field s channel msg_type_str msg_field rate layer).2
            = .ok (channel ++ "/" ++ msg_field)
        ∧ dget (add_field s channel msg_type_str msg_field rate layer).1.config
              (channel ++ "/" ++ msg_field)
            = some ⟨channel, msg_type_str, msg_field, rate, layer⟩)
    ∧ (keysUnique s →
        keysUnique (add_field s channel msg_type_str msg_field rate layer).1)
    ∧ (∀ key, keysUnique s → keysUnique (remove_field s key)) := by
  intro s channel msg_type_str msg_field rate layer
  refine ⟨?_, ?_, ?_, ?_⟩
  · intro h
    simp [add_field, h]
  · intro h
    constructor
    · simp [add_field, h]
    · simp [add_field, h, dget_dinsert_self]
  · intro h
    by_cases hdup : (dget s.config (channel ++ "/" ++ msg_field)).isSome
    · simpa [add_field, hdup] using h
    · simp only [add_field, hdup, if_false, Bool.false_eq_true]
      exact dkeys_dinsert_nodup _ _ _ h
  · intro key h
    exact dkeys_dpop_nodup _ _ h

/-- Witness for C5 at a concrete one-field registry. -/
theorem add_field_duplicate_rejected_witness :
    (dget sampleState1.config ("CH" ++ "/" ++ "field")).isSome
    ∧ add_field sampleState1 "CH" "float" "field" 1 "name"
      = (sampleState1, .duplicateField ("CH" ++ "/" ++ "field")) := by
  refine ⟨by decide, ?_⟩
  exact (add_field_duplicate_rejected sampleState1
    "CH" "float" "field" 1 "name").1 (by decide)

/-- C9: for a registered key (with the registry's key-uniqueness
invariant), `remove_field` then `add_field` with the same channel,
message type, field name, sample rate, and layer name succeeds (no
`DuplicateField`) and restores the same config entry for that key. -/
theorem remove_add_roundtrip (s : MainState) (key : String) (e : FieldConfig)
    (hu : keysUnique s)
    (hk : dget s.config key = some e)
    (hkey : key = e.channel ++ "/" ++ e.msg_field) :
    (add_field (remove_field s key) e.channel e.msg_type_str e.msg_field
        e.sample_rate e.layer_name).2 = .ok key
    ∧ dget (add_field (remove_field s key) e.channel e.msg_type_str e.msg_field
        e.sample_rate e.layer_name).1.config key = some e := by
  have h1 : dget (remove_field s key).config key = none :=
    dget_dpop_self s.config key hu
  rw [hkey] at h1 ⊢
  constructor
  · simp [add_field, h1]
  · simp [add_field, h1, dget_dinsert_self]

/-- Witness for C9 at a concrete one-field registry. -/
theorem remove_add_roundtrip_witness :
    keysUnique sampleState1
    ∧ dget sampleState1.config "CH/field"
        = some ⟨"CH", "float", "field", 1, "name"⟩
    ∧ ((add_field (remove_field sampleState1 "CH/field")
          "CH" "float" "field" 1 "name").2 = .ok "CH/field"
      ∧ dget (add_field (remove_field sampleState1 "CH/field")
          "CH" "float" "field" 1 "name").1.config "CH/field"
        = some ⟨"CH", "float", "field", 1, "name"⟩) := by
  refine ⟨by decide, by decide, ?_⟩
  exact remove_add_roundtrip sampleState1
    "CH/field" ⟨"CH", "float", "field", 1, "name"⟩
    (by decide) (by decide) (by decide)

/-- C10: `remove_field k` (with unique keys) deletes exactly `k`'s
entries: every other key's config entry, sample rate, last-accepted
timestamp, subscription handle, buffered time-series data, and y-limit
override are unchanged, and `k`'s config entry is gone. -/
theorem remove_field_frame (s : MainState) (k k' : String)
    (hu : keysUnique s) (hne : k' ≠ k) :
    dget (remove_field s k).config k' = dget s.config k'
    ∧ dget (remove_field s k).sample_rates k' = dget s.sample_rates k'
    ∧ dget (remove_field s k).last_updated k' = dget s.last_updated k'
    ∧ dget (remove_field s k).subscribers k' = dget s.subscribers k'
    ∧ dget (remove_field s k).tsp_data k' = dget s.tsp_data k'
    ∧ dget (remove_field s k).tsp_ylims k' = dget s.tsp_ylims k'
    ∧ dget (remove_field s k).config k = none :=
  ⟨dget_dpop_ne s.config k k' hne,
   dget_dpop_ne s.sample_rates k k' hne,
   dget_dpop_ne s.last_updated k k' hne,
   dget_dpop_ne s.subscribers k k' hne,
   dget_dpop_ne s.tsp_data k k' hne,
   dget_dpop_ne s.tsp_ylims k k' hne,
   dget_dpop_self s.config k hu⟩

/-- Witness for C10 at a concrete two-field registry. -/
theorem remove_field_frame_witness :
    keysUnique sampleState2
    ∧ ("B/g" : String) ≠ "A/f"
    ∧ dget (remove_field sampleState2 "A/f").tsp_data "B/g"
      = dget sampleState2.tsp_data "B/g" := by
  refine ⟨by decide, by decide, ?_⟩
  exact (remove_field_frame sampleState2
    "A/f" "B/g" (by decide) (by decide)).2.2.2.2.1

/-! ## Position track lemmas -/

theorem handle_statexy_chain (track : List PositionSample) (msg : StateXYMsg)
    (h : timesStrictMono track) : timesStrictMono (handle_statexy track msg) := by
  unfold timesStrictMono at h ⊢
  cases hl : track.getLast? with
  | none =>
    have htr : track = [] := List.getLast?_eq_none_iff.1 hl
    subst htr
    simp [handle_statexy]
  | some last =>
    by_cases hlt : last.time < msg.time
    · have : handle_statexy track msg = track ++ [⟨msg.time, msg.x, msg.y⟩] := by
        simp [handle_statexy, hl, hlt]
      rw [this]
      refine List.Chain'.append h (List.chain'_singleton _) ?_
      intro x hx y hy
      rw [hl] at hx
      simp only [Option.mem_def, Option.some.injEq] at hx
      simp only [List.head?_cons, Option.mem_def, Option.some.injEq] at hy
      subst hx
      subst hy
      exact hlt
    · have : handle_statexy track msg = track := by
        simp [handle_statexy, hl, hlt]
      rw [this]
      exact h

theorem foldl_statexy_chain (msgs : List StateXYMsg) :
    ∀ track : List PositionSample, timesStrictMono track →
      timesStrictMono (msgs.foldl handle_statexy track) := by
  induction msgs with
  | nil => intro track h; exact h
  | cons m ms ih =>
    intro track h
    exact ih (handle_statexy track m) (handle_statexy_chain track m h)

/-- C1: for every sequence of statexy deliveries (from either of the
redundant position channels), the stored times of the resulting track
are strictly increasing; an append to an empty track inserts the
sample, an append with time greater than the last stored time appends
it, and any other append is a no-op leaving the track (length and
contents) unchanged. -/
theorem statexy_track_strictly_increasing :
    (∀ msgs : List StateXYMsg, timesStrictMono (runStateXY msgs))
    ∧ (∀ msg : StateXYMsg,
        handle_statexy [] msg = [⟨msg.time, msg.x, msg.y⟩])
    ∧ (∀ (track : List PositionSample) (msg : StateXYMsg)
         (last : PositionSample), track.getLast? = some last →
        (last.time < msg.time →
          handle_statexy track msg = track ++ [⟨msg.time, msg.x, msg.y⟩])
        ∧ (msg.time ≤ last.time → handle_statexy track msg = track)) := by
  refine ⟨?_, ?_, ?_⟩
  · intro msgs
    exact foldl_statexy_chain msgs [] List.chain'_nil
  · intro msg
    rfl
  · intro track msg last hl
    constructor
    · intro hlt
      simp [handle_statexy, hl, hlt]
    · intro hle
      simp [handle_statexy, hl, not_lt.2 hle]

/-- Witness for C1: two messages, the second stale. -/
theorem statexy_track_strictly_increasing_witness :
    timesStrictMono (runStateXY [⟨2000000, 1, 2⟩, ⟨1000000, 3, 4⟩])
    ∧ ([⟨(2 : ℚ), 1, 2⟩] : List PositionSample).getLast? = some ⟨2, 1, 2⟩
    ∧ StateXYMsg.time ⟨1000000, 3, 4⟩ ≤ (2 : ℚ)
    ∧ handle_statexy [⟨2, 1, 2⟩] ⟨1000000, 3, 4⟩ = [⟨2, 1, 2⟩]
    ∧ (2 : ℚ) < StateXYMsg.time ⟨3000000, 5, 6⟩
    ∧ handle_statexy [⟨2, 1, 2⟩] ⟨3000000, 5, 6⟩ = [⟨2, 1, 2⟩, ⟨3, 5, 6⟩] := by
  refine ⟨statexy_track_strictly_increasing.1 [⟨2000000, 1, 2⟩, ⟨1000000, 3, 4⟩],
    by decide, by norm_num [StateXYMsg.time], ?_,
    by norm_num [StateXYMsg.time], ?_⟩
  · exact (statexy_track_strictly_increasing.2.2 [⟨2, 1, 2⟩] ⟨1000000, 3, 4⟩
      ⟨2, 1, 2⟩ (by decide)).2 (by norm_num [StateXYMsg.time])
  · have h := (statexy_track_strictly_increasing.2.2 [⟨2, 1, 2⟩] ⟨3000000, 5, 6⟩
      ⟨2, 1, 2⟩ (by decide)).1 (by norm_num [StateXYMsg.time])
    norm_num [StateXYMsg.time] at h
    exact h

/-! ## Rate limiter theorems -/

theorem limiter_invariant (R : ℚ) (ts : List ℚ) :
    (run_limiter R ts).last_updated
      = ((run_limiter R ts).accepted.getLast?).getD 0 := by
  suffices h : ∀ (ts : List ℚ) (st : LimiterState),
      st.last_updated = (st.accepted.getLast?).getD 0 →
      (ts.foldl (limiter_step R) st).last_updated
        = ((ts.foldl (limiter_step R) st).accepted.getLast?).getD 0 by
    exact h ts initLimiter rfl
  intro ts
  induction ts with
  | nil => intro st hst; exact hst
  | cons t ts ih =>
    intro st hst
    simp only [List.foldl_cons]
    apply ih
    unfold limiter_step
    by_cases hc : t - st.last_updated < 1 / R
    · rw [if_pos hc]; exact hst
    · rw [if_neg hc]
      simp [List.getLast?_concat]

/-- C2 counterexample: with `sample_rate_hz = 2`, delivering samples at
times 0.0, 0.1, 0.6, 0.9, 1.2 to a freshly added field accepts only
{0.6, 1.2}: since `add_field` sets `last_updated = 0.0`, the sample at
time 0.0 has `dt = 0.0 < 0.5` and is dropped, contradicting the claimed
accepted set {0.0, 0.6, 1.2}. -/
theorem rate_limit_example_drops_first :
    (run_limiter 2 [0, 1/10, 3/5, 9/10, 6/5]).accepted = [3/5, 6/5]
    ∧ (run_limiter 2 [0, 1/10, 3/5, 9/10, 6/5]).accepted ≠ [0, 3/5, 6/5] := by
  have h : (run_limiter 2 [0, 1/10, 3/5, 9/10, 6/5]).accepted = [3/5, 6/5] := by
    norm_num [run_limiter, limiter_step, initLimiter]
  refine ⟨h, ?_⟩
  rw [h]
  intro hc
  exact absurd (List.head_eq_of_cons_eq hc) (by norm_num)

/-- C2 (amended): a sample at time `t` is accepted exactly when
`t` minus the time of the last accepted sample — taken as `0.0` when no
sample has been accepted yet, since `add_field` initializes
`last_updated = 0.0` — is at least `1/sample_rate`; with rate 2, the
times 0.0, 0.1, 0.6, 0.9, 1.2 yield accepted times {0.6, 1.2}. -/
theorem rate_limit_spec :
    (∀ (R : ℚ) (ts : List ℚ) (t : ℚ),
      (run_limiter R (ts ++ [t])).accepted =
        if 1 / R ≤ t - (((run_limiter R ts).accepted.getLast?).getD 0)
        then (run_limiter R ts).accepted ++ [t]
        else (run_limiter R ts).accepted)
    ∧ (run_limiter 2 [0, 1/10, 3/5, 9/10, 6/5]).accepted = [3/5, 6/5] := by
  constructor
  · intro R ts t
    have hstep : run_limiter R (ts ++ [t]) = limiter_step R (run_limiter R ts) t := by
      simp [run_limiter, List.foldl_append]
    rw [hstep, limiter_step, limiter_invariant R ts]
    by_cases h : t - (((run_limiter R ts).accepted.getLast?).getD 0) < 1 / R
    · rw [if_pos h, if_neg (not_le.2 h)]
    · rw [if_neg h, if_pos (not_lt.1 h)]
  · norm_num [run_limiter, limiter_step, initLimiter]

/-! ## View window theorems -/

/-- C6: the most recently set window policy wins. After a right-drag
EXPLICIT range `[a, b]` followed by `set_time_limits` (the typed
trailing/since policy), the display bounds and visible slice follow the
typed policy (the mouse range is cleared); after a subsequent right
drag, the EXPLICIT bounds `(a, b)` determine the bounds and the visible
slice, even though the typed value is still stored. -/
theorem view_window_precedence :
    ∀ (s : TSState) (a b tl : ℚ) (data : List (ℚ × ℚ)),
      (window_bounds (set_time_limits (set_explicit s a b) (some tl))
          (data.map Prod.fst)
        = if tl < 0
          then (listMax (data.map Prod.fst) + tl, listMax (data.map Prod.fst))
          else (tl, listMax (data.map Prod.fst)))
      ∧ (window_bounds (set_time_limits (set_explicit s a b) none)
          (data.map Prod.fst)
        = (listMin (data.map Prod.fst), listMax (data.map Prod.fst)))
      ∧ (window_bounds (set_explicit (set_time_limits s (some tl)) a b)
          (data.map Prod.fst) = (a, b))
      ∧ ((set_explicit (set_time_limits s (some tl)) a b).time_limit = some tl)
      ∧ visible_slice (set_explicit (set_time_limits s (some tl)) a b) data
        = data.filter (fun p => a ≤ p.1 ∧ p.1 ≤ b) := by
  intro s a b tl data
  refine ⟨rfl, rfl, rfl, rfl, ?_⟩
  simp [visible_slice, set_explicit, on_press_right, on_release_right,
    set_time_limits, window_bounds]

/-! ## Scalar message handling theorems -/

/-- C8: a malformed message (decode raises `ValueError`) or a message
missing the named field (`getattr` raises `AttributeError`) is dropped
by `handle_data` without any exception escaping, and the delivery loop
processes every other message exactly as if the failing one were
absent; a well-formed message carrying the field is forwarded. -/
theorem decode_failure_isolated :
    (∀ channel msg_field : String,
      handle_data msg_field channel .malformed = none)
    ∧ (∀ (channel msg_field : String) (m : ScalarMsg),
        dget m.fields msg_field = none →
        handle_data msg_field channel (.valid m) = none)
    ∧ (∀ (channel msg_field : String) (pre post : List RawData) (d : RawData),
        spin_lcm msg_field channel (pre ++ d :: post)
          = spin_lcm msg_field channel pre
            ++ (handle_data msg_field channel d).toList
            ++ spin_lcm msg_field channel post)
    ∧ (∀ (channel msg_field : String) (m : ScalarMsg) (v : ℚ),
        dget m.fields msg_field = some v →
        handle_data msg_field channel (.valid m)
          = some (channel ++ "/" ++ msg_field, (m.utime : ℚ) / 1000000, v)) := by
  refine ⟨?_, ?_, ?_, ?_⟩
  · intro channel msg_field
    rfl
  · intro channel msg_field m h
    simp [handle_data, handle_data_body, decodeMsg, getattrField, h]
  · intro channel msg_field pre post d
    cases h : handle_data msg_field channel d with
    | none => simp [spin_lcm, List.filterMap_append, List.filterMap_cons, h]
    | some r => simp [spin_lcm, List.filterMap_append, List.filterMap_cons, h]
  · intro channel msg_field m v h
    simp [handle_data, handle_data_body, decodeMsg, getattrField, h]

/-- Witness for C8: a channel backlog where the middle message lacks
the subscribed field and is dropped while its neighbours get through. -/
theorem decode_failure_isolated_witness :
    dget (⟨2000000, [("depth", 7)]⟩ : ScalarMsg).fields "temp" = none
    ∧ handle_data "temp" "SCI" (.valid ⟨2000000, [("depth", 7)]⟩) = none
    ∧ dget (⟨1000000, [("temp", 3)]⟩ : ScalarMsg).fields "temp" = some 3
    ∧ handle_data "temp" "SCI" (.valid ⟨1000000, [("temp", 3)]⟩)
        = some ("SCI" ++ "/" ++ "temp", ((1000000 : ℤ) : ℚ) / 1000000, 3)
    ∧ spin_lcm "temp" "SCI"
        ([.valid ⟨1000000, [("temp", 3)]⟩]
          ++ RawData.malformed :: [.valid ⟨3000000, [("temp", 5)]⟩])
      = spin_lcm "temp" "SCI" [.valid ⟨1000000, [("temp", 3)]⟩]
        ++ (handle_data "temp" "SCI" .malformed).toList
        ++ spin_lcm "temp" "SCI" [.valid ⟨3000000, [("temp", 5)]⟩] := by
  refine ⟨by decide, ?_, by decide, ?_, ?_⟩
  · exact decode_failure_isolated.2.1 "SCI" "temp" ⟨2000000, [("depth", 7)]⟩
      (by decide)
  · exact decode_failure_isolated.2.2.2 "SCI" "temp" ⟨1000000, [("temp", 3)]⟩ 3
      (by decide)
  · exact decode_failure_isolated.2.2.1 "SCI" "temp"
      [.valid ⟨1000000, [("temp", 3)]⟩] [.valid ⟨3000000, [("temp", 5)]⟩]
      RawData.malformed

/-! ## Interpolation lemmas -/

theorem interp_le_head (t t0 v0 : ℚ) (rest : List (ℚ × ℚ)) (h : t ≤ t0) :
    interp t ((t0, v0) :: rest) = v0 := by
  cases rest with
  | nil => rfl
  | cons hd tl =>
    obtain ⟨t1, v1⟩ := hd
    simp only [interp]
    rw [if_pos h]

theorem chain_head_lt_last :
    ∀ (l : List (ℚ × ℚ)) (a x : ℚ × ℚ), List.Chain' ptLT (a :: l) →
      l.getLast? = some x → a.1 < x.1 := by
  intro l
  induction l with
  | nil =>
    intro a x _ hl
    simp at hl
  | cons b l2 ih =>
    intro a x hch hl
    have hab : ptLT a b := (List.chain'_cons.1 hch).1
    have hch' : List.Chain' ptLT (b :: l2) := (List.chain'_cons.1 hch).2
    cases l2 with
    | nil =>
      simp only [List.getLast?_singleton, Option.some.injEq] at hl
      subst hl
      exact hab
    | cons c l3 =>
      rw [List.getLast?_cons_cons] at hl
      exact lt_trans hab (ih b x hch' hl)

theorem chain_head_le_last (l : List (ℚ × ℚ)) (a x : ℚ × ℚ)
    (hch : List.Chain' ptLT (a :: l)) (hl : (a :: l).getLast? = some x) :
    a.1 ≤ x.1 := by
  cases l with
  | nil =>
    simp only [List.getLast?_singleton, Option.some.injEq] at hl
    subst hl
    exact le_refl a.1
  | cons b l2 =>
    rw [List.getLast?_cons_cons] at hl
    exact le_of_lt (chain_head_lt_last (b :: l2) a x hch hl)

theorem interp_last :
    ∀ (pts : List (ℚ × ℚ)) (t tl vl : ℚ), List.Chain' ptLT pts →
      pts.getLast? = some (tl, vl) → tl ≤ t → interp t pts = vl := by
  intro pts
  induction pts with
  | nil =>
    intro t tl vl _ hl
    simp at hl
  | cons hd rest ih =>
    obtain ⟨t0, v0⟩ := hd
    intro t tl vl hch hl hle
    cases rest with
    | nil =>
      simp only [List.getLast?_singleton, Option.some.injEq, Prod.mk.injEq] at hl
      exact hl.2 ▸ rfl
    | cons hd2 rest2 =>
      obtain ⟨t1, v1⟩ := hd2
      have h01 : t0 < t1 := (List.chain'_cons.1 hch).1
      have hch' : List.Chain' ptLT ((t1, v1) :: rest2) := (List.chain'_cons.1 hch).2
      rw [List.getLast?_cons_cons] at hl
      have h1l : t1 ≤ tl :=
        chain_head_le_last rest2 (t1, v1) (tl, vl) hch' hl
      have ht0 : ¬ t ≤ t0 := not_le.2 (lt_of_lt_of_le h01 (le_trans h1l hle))
      simp only [interp]
      rw [if_neg ht0]
      by_cases ht1 : t ≤ t1
      · cases rest2 with
        | nil =>
          simp only [List.getLast?_singleton, Option.some.injEq, Prod.mk.injEq] at hl
          have htt1 : t = t1 := le_antisymm ht1 (le_trans (hl.1 ▸ hle) le_rfl)
          rw [if_pos ht1, htt1, mul_div_assoc,
              div_self (sub_ne_zero.2 (Ne.symm (ne_of_lt h01))), mul_one, ← hl.2]
          ring
        | cons c rest3 =>
          exfalso
          rw [List.getLast?_cons_cons] at hl
          have : t1 < tl := chain_head_lt_last (c :: rest3) (t1, v1) (tl, vl) hch' hl
          exact absurd (le_trans hle ht1) (not_le.2 this)
      · rw [if_neg ht1]
        exact ih t tl vl hch' hl hle

theorem chain_lt_of_append (a b : ℚ × ℚ) (l l₂ : List (ℚ × ℚ))
    (h : List.Chain' ptLT (a :: (l ++ b :: l₂))) : a.1 < b.1 := by
  rw [List.chain'_iff_pairwise] at h
  exact (List.pairwise_cons.1 h).1 b (by simp)

theorem interp_bracket :
    ∀ (l₁ : List (ℚ × ℚ)) (ta va tb vb t : ℚ) (l₂ : List (ℚ × ℚ)),
      List.Chain' ptLT (l₁ ++ (ta, va) :: (tb, vb) :: l₂) → ta ≤ t → t ≤ tb →
      interp t (l₁ ++ (ta, va) :: (tb, vb) :: l₂)
        = va + (vb - va) * (t - ta) / (tb - ta) := by
  intro l₁
  induction l₁ with
  | nil =>
    intro ta va tb vb t l₂ hch h1 h2
    simp only [List.nil_append] at hch ⊢
    simp only [interp]
    by_cases hta : t ≤ ta
    · have ht : t = ta := le_antisymm hta h1
      rw [if_pos hta, ht, sub_self, mul_zero, zero_div, add_zero]
    · rw [if_neg hta, if_pos h2]
  | cons hd l₁' ih =>
    obtain ⟨t0, v0⟩ := hd
    intro ta va tb vb t l₂ hch h1 h2
    cases l₁' with
    | nil =>
      simp only [List.nil_append, List.cons_append] at hch ⊢
      have h0a : t0 < ta := (List.chain'_cons.1 hch).1
      have hch' : List.Chain' ptLT ((ta, va) :: (tb, vb) :: l₂) :=
        (List.chain'_cons.1 hch).2
      have ht0 : ¬ t ≤ t0 := not_le.2 (lt_of_lt_of_le h0a h1)
      simp only [interp]
      rw [if_neg ht0]
      by_cases hta : t ≤ ta
      · have ht : t = ta := le_antisymm hta h1
        rw [if_pos hta, ht, mul_div_assoc,
            div_self (sub_ne_zero.2 (Ne.symm (ne_of_lt h0a))), mul_one,
            sub_self, mul_zero, zero_div, add_zero]
        ring
      · rw [if_neg hta]
        have h0 := ih ta va tb vb t l₂ (by simpa using hch') h1 h2
        simpa using h0
    | cons hd2 l₁'' =>
      obtain ⟨th, vh⟩ := hd2
      simp only [List.cons_append] at hch ⊢
      have h0h : t0 < th := (List.chain'_cons.1 hch).1
      have hch' : List.Chain' ptLT
          ((th, vh) :: (l₁'' ++ (ta, va) :: (tb, vb) :: l₂)) :=
        (List.chain'_cons.1 hch).2
      have hha : th < ta :=
        chain_lt_of_append (th, vh) (ta, va) l₁'' ((tb, vb) :: l₂) hch'
      have ht0 : ¬ t ≤ t0 :=
        not_le.2 (lt_of_lt_of_le (lt_trans h0h hha) h1)
      have hth : ¬ t ≤ th := not_le.2 (lt_of_lt_of_le hha h1)
      simp only [interp]
      rw [if_neg ht0, if_neg hth]
      have h0 := ih ta va tb vb t l₂ (by simpa using hch') h1 h2
      simpa using h0

/-- C4: on the example track with samples at times {10, 20, 30} and
x-values {0, 10, 20}, `np.interp` gives 5 at time 15, clamps to 0
before the data and to 20 after it; and in general, for a nonempty
time-ordered point list, a query at or before the first time returns
the first value, a query at or after the last time returns the last
value, and a query bracketed by two consecutive samples returns their
linear interpolation. -/
theorem interp_clamps_and_linear :
    interp 15 [(10, 0), (20, 10), (30, 20)] = 5
    ∧ interp 5 [(10, 0), (20, 10), (30, 20)] = 0
    ∧ interp 35 [(10, 0), (20, 10), (30, 20)] = 20
    ∧ (∀ (t t0 v0 : ℚ) (rest : List (ℚ × ℚ)), t ≤ t0 →
        interp t ((t0, v0) :: rest) = v0)
    ∧ (∀ (pts : List (ℚ × ℚ)) (t tl vl : ℚ), List.Chain' ptLT pts →
        pts.getLast? = some (tl, vl) → tl ≤ t → interp t pts = vl)
    ∧ (∀ (l₁ l₂ : List (ℚ × ℚ)) (ta va tb vb t : ℚ),
        List.Chain' ptLT (l₁ ++ (ta, va) :: (tb, vb) :: l₂) →
        ta ≤ t → t ≤ tb →
        interp t (l₁ ++ (ta, va) :: (tb, vb) :: l₂)
          = va + (vb - va) * (t - ta) / (tb - ta)) := by
  refine ⟨by norm_num [interp], by norm_num [interp], by norm_num [interp],
    interp_le_head, interp_last, ?_⟩
  intro l₁ l₂ ta va tb vb t hch h1 h2
  exact interp_bracket l₁ ta va tb vb t l₂ hch h1 h2

/-- Witness for C4: the general clamping and bracketing parts applied
on the example track. -/
theorem interp_clamps_and_linear_witness :
    ((5 : ℚ) ≤ 10 ∧ interp 5 [(10, 0), (20, 10)] = 0)
    ∧ (List.Chain' ptLT [((10 : ℚ), 0), (20, 10)]
      ∧ ([((10 : ℚ), 0), (20, 10)]).getLast? = some (20, 10)
      ∧ (20 : ℚ) ≤ 35 ∧ interp 35 [(10, 0), (20, 10)] = 10)
    ∧ (List.Chain' ptLT ([] ++ ((10 : ℚ), (0 : ℚ)) :: (20, 10) :: [])
      ∧ (10 : ℚ) ≤ 15 ∧ (15 : ℚ) ≤ 20
      ∧ interp 15 ([] ++ ((10 : ℚ), (0 : ℚ)) :: (20, 10) :: [])
          = 0 + (10 - 0) * (15 - 10) / (20 - 10)) := by
  refine ⟨⟨by norm_num, ?_⟩,
    ⟨by norm_num [List.chain'_pair, ptLT], by decide, by norm_num, ?_⟩,
    ⟨by norm_num [List.chain'_pair, ptLT], by norm_num, by norm_num, ?_⟩⟩
  · exact interp_clamps_and_linear.2.2.2.1 5 10 0 [(20, 10)] (by norm_num)
  · exact interp_clamps_and_linear.2.2.2.2.1 [(10, 0), (20, 10)] 35 20 10
      (by norm_num [List.chain'_pair, ptLT]) (by decide) (by norm_num)
  · exact interp_clamps_and_linear.2.2.2.2.2 [] [] 10 0 20 10 15
      (by norm_num [List.chain'_pair, ptLT]) (by norm_num) (by norm_num)

/-! ## Geolocation gating theorems -/

/-- C3 counterexample: with the origin initialized but no statexy
message yet received (`self.statexy_data is None`), both `update_cursor`
and `update_data` evaluate `self.statexy_data[:, 0]` and raise an
uncaught `TypeError`; there is no recovered `NotReady` condition in the
code. -/
theorem empty_track_type_error :
    update_cursor (some ⟨42, -70⟩) [] 5 = .typeError
    ∧ map_update_data (some ⟨42, -70⟩) ["CH/field"] [] "CH/field" 5
        = .typeError := by
  constructor
  · rfl
  · simp [map_update_data]

/-- C3 (amended): while the origin is unset both handlers return
early without touching the position track (no lookup is attempted for
any track state); with the origin set but the track still `None`, the
handlers raise an uncaught `TypeError` (a crash, not a locally
recovered `NotReady`); and with the origin set and a nonempty track
they interpolate the track at the request time and convert the result
to lat/lon via `xy2ll`. -/
theorem geolocation_gating :
    (∀ (track : List PositionSample) (tt : ℚ),
        update_cursor none track tt = .earlyReturn)
    ∧ (∀ (layerKeys : List String) (track : List PositionSample)
          (key : String) (tt : ℚ),
        map_update_data none layerKeys track key tt = .earlyReturnOrigin)
    ∧ (∀ (o : Origin) (tt : ℚ), update_cursor (some o) [] tt = .typeError)
    ∧ (∀ (o : Origin) (s : PositionSample) (rest : List PositionSample)
          (tt : ℚ),
        update_cursor (some o) (s :: rest) tt
          = .feature (interp tt (trackTX (s :: rest)))
              (interp tt (trackTY (s :: rest))))
    ∧ (∀ (o : Origin) (x y : ℚ),
        featureGeo o x y = xy2ll (x : ℝ) (y : ℝ) (o.lat0 : ℝ) (o.lon0 : ℝ)) :=
  ⟨fun _ _ => rfl, fun _ _ _ _ => rfl, fun _ _ => rfl,
   fun _ _ _ _ => rfl, fun _ _ _ => rfl⟩

/-! ## Projection theorems -/

/-- C7 counterexample: the longitude adjustment in `ll2xy` subtracts or
adds 360 at most once, so the finite input longitude 541 is mapped to
181, which is outside [-180, 180]; `ll2xy` then applies the scale
factor to that un-normalized value. -/
theorem longitude_not_normalized :
    normalizeLon 541 = 181
    ∧ ¬ ((-180 : ℝ) ≤ normalizeLon 541 ∧ normalizeLon 541 ≤ 180)
    ∧ ll2xy 0 541 0 7 = ((181 - 7) * mdeglon 0, (0 - 0) * mdeglat 0) := by
  have h : normalizeLon (541 : ℝ) = 181 := by
    norm_num [normalizeLon]
  refine ⟨h, ?_, ?_⟩
  · rw [h]
    norm_num
  · unfold ll2xy
    rw [h]

/-- C7 (amended): the longitude adjustment lands in [-180, 180] for
input longitudes in [-540, 540] (it wraps by at most one turn, so
larger inputs stay out of range), and both conversion directions are
total functions given by the stated closed-form expressions for all
real inputs. -/
theorem longitude_normalization (lon : ℝ) (h1 : -540 ≤ lon) (h2 : lon ≤ 540) :
    ((-180 : ℝ) ≤ normalizeLon lon ∧ normalizeLon lon ≤ 180)
    ∧ (∀ lat lat_0 lon_0 : ℝ, ll2xy lat lon lat_0 lon_0
        = ((normalizeLon lon - lon_0) * mdeglon lat_0,
           (lat - lat_0) * mdeglat lat_0))
    ∧ (∀ xx yy lat_0 lon_0 : ℝ, xy2ll xx yy lat_0 lon_0
        = (yy / mdeglat lat_0 + lat_0, xx / mdeglon lat_0 + lon_0)) := by
  refine ⟨?_, fun _ _ _ => rfl, fun _ _ _ _ => rfl⟩
  simp only [normalizeLon]
  split_ifs with ha hb hb
  · constructor <;> linarith
  · constructor <;> linarith
  · constructor <;> linarith
  · constructor <;> linarith

/-- Witness for C7 at longitude 200. -/
theorem longitude_normalization_witness :
    (-540 : ℝ) ≤ 200 ∧ (200 : ℝ) ≤ 540
    ∧ (((-180 : ℝ) ≤ normalizeLon 200 ∧ normalizeLon 200 ≤ 180)
      ∧ (∀ lat lat_0 lon_0 : ℝ, ll2xy lat 200 lat_0 lon_0
          = ((normalizeLon 200 - lon_0) * mdeglon lat_0,
             (lat - lat_0) * mdeglat lat_0))
      ∧ (∀ xx yy lat_0 lon_0 : ℝ, xy2ll xx yy lat_0 lon_0
          = (yy / mdeglat lat_0 + lat_0, xx / mdeglon lat_0 + lon_0))) :=
  ⟨by norm_num, by norm_num,
   longitude_normalization 200 (by norm_num) (by norm_num)⟩

end NuiScalarData
